import Mathlib

/-!
Verification development for the trendify repository.

The Python sources are shallowly embedded in Lean:

* `src/trendify/products.py` — `should_be_flattened`, `flatten`,
  `DataProductCollection.get_products` / `drop_products`;
* `src/trendify/database_backends/file_storage.py` — `TrendifyIndex`
  (`add_asset`, `add_spec`, `add_asset_file`, the `get_*` queries) and
  `AssetCollection`;
* `src/trendify/manager.py` — `TrendifyManager` (`_get_origin_id`,
  `process_origin_directory`, `process_origins`, `_load_assets_file`,
  `get_assets_by_origin`, `get_asset_by_id`, `clear_cache`);
* `src/typeflow/serialization/type_info.py` — `TypeInfo.cache_key`,
  `TypeInfo.get_import` (the import machinery itself — `import_module`,
  `getattr`, parameter application — is abstracted as a deterministic
  environment, since it is external to the repository);
* `src/typeflow/serialization/serializable_model.py` —
  `SerializableModel.model_validate`, `type_info`, `__hash__`, and
  `NamedModel.__eq__` / `__hash__` (pydantic field validation is embedded
  structurally; pydantic compares models by class and field dict).

Python `dict`s are embedded as insertion-ordered association lists
(`lookupA` / `setA` below), which matches CPython's ordered-dict
semantics: assignment to an existing key keeps its position, a new key
is appended, and `next(iter(d))` is the earliest-inserted key.
-/

/-- Association-list lookup, the embedding of Python `d[k]` / `k in d`. -/
def lookupA {α : Type} : List (String × α) → String → Option α
  | [], _ => none
  | (k', v) :: rest, k => if k' = k then some v else lookupA rest k

/-- Association-list update, the embedding of Python `d[k] = v` on an
insertion-ordered dict: an existing key keeps its position, a new key is
appended at the end. -/
def setA {α : Type} : List (String × α) → String → α → List (String × α)
  | [], k, v => [(k, v)]
  | (k', v') :: rest, k, v =>
    if k' = k then (k, v) :: rest else (k', v') :: setA rest k v

/-- The keys of an association list, in insertion order. -/
def keysA {α : Type} (l : List (String × α)) : List String :=
  l.map Prod.fst

/-- A data product record as far as the collection operations observe it:
its tag list and its concrete runtime class name (`isinstance` tests are
embedded through an abstract subclass relation over class names). -/
structure DataProduct where
  tags : List String
  cls : String
deriving DecidableEq

/-- A Python value as `flatten` in `products.py` observes it: a scalar
(non-iterable), a string, a byte buffer, a `DataProduct`, or an iterable
of further values. -/
inductive PyVal where
  | scalar (n : Int)
  | pstr (s : String)
  | pbytes (b : List Nat)
  | product (p : DataProduct)
  | iterable (xs : List PyVal)

/-- `isinstance(obj, Iterable)`: strings, byte buffers and containers are
iterable; scalars and `DataProduct` (a pydantic model) are not. -/
def isIterable : PyVal → Bool
  | .pstr _ => true
  | .pbytes _ => true
  | .iterable _ => true
  | _ => false

/-- `isinstance(obj, (str, bytes, DataProduct))`. -/
def isStrBytesOrProduct : PyVal → Bool
  | .pstr _ => true
  | .pbytes _ => true
  | .product _ => true
  | _ => false

/-- `should_be_flattened` from `products.py`:
`isinstance(obj, Iterable) and not isinstance(obj, (str, bytes, DataProduct))`. -/
def should_be_flattened (v : PyVal) : Bool :=
  isIterable v && !(isStrBytesOrProduct v)

mutual

/-- `flatten` from `products.py`: if the object is not to be flattened it
is yielded unchanged, otherwise each member is flattened recursively, in
order.  In this value universe `should_be_flattened` holds exactly on the
`iterable` constructor, which is the case that recurses. -/
def flatten : PyVal → List PyVal
  | .iterable xs => flattenList xs
  | .scalar n => [.scalar n]
  | .pstr s => [.pstr s]
  | .pbytes b => [.pbytes b]
  | .product p => [.product p]

/-- `for sublist in obj: yield from flatten(sublist)`. -/
def flattenList : List PyVal → List PyVal
  | [] => []
  | x :: xs => flatten x ++ flattenList xs

end

/-- Atomicity as the claim words it: an item is atomic iff it is not an
iterable, or it is a `str`, `bytes` or `DataProduct` instance. -/
def atomicItem (v : PyVal) : Bool :=
  !(isIterable v) || isStrBytesOrProduct v

/-- `DataProductCollection` from `products.py`: an ordered list of
data products. -/
structure DataProductCollection where
  elements : List DataProduct
deriving DecidableEq

/-- `DataProductCollection.get_products(tag, object_type)`: keeps the
elements matching the given tag and/or type; both `None` keeps everything.
`sub` is the abstract `isinstance` relation on class names. -/
def get_products (sub : String → String → Bool) (c : DataProductCollection)
    (tag : Option String) (object_type : Option String) : DataProductCollection :=
  match tag, object_type with
  | none, none => ⟨c.elements⟩
  | none, some T => ⟨c.elements.filter (fun e => sub e.cls T)⟩
  | some t, none => ⟨c.elements.filter (fun e => e.tags.contains t)⟩
  | some t, some T => ⟨c.elements.filter (fun e => e.tags.contains t && sub e.cls T)⟩

/-- `DataProductCollection.drop_products(tag, object_type)`: drops the
elements matching the given tag and/or type.  Note that in the source the
`(None, None)` case returns a full copy of the element list (the same as
`get_products(None, None)`), not the empty complement. -/
def drop_products (sub : String → String → Bool) (c : DataProductCollection)
    (tag : Option String) (object_type : Option String) : DataProductCollection :=
  match tag, object_type with
  | none, none => ⟨c.elements⟩
  | none, some T => ⟨c.elements.filter (fun e => !(sub e.cls T))⟩
  | some t, none => ⟨c.elements.filter (fun e => !(e.tags.contains t))⟩
  | some t, some T => ⟨c.elements.filter (fun e => !(e.tags.contains t && sub e.cls T))⟩

/-- A per-tag bucket of the index: `{"asset_ids": [], "spec_ids": [], "asset_files": []}`. -/
structure TagBucket where
  asset_ids : List String
  spec_ids : List String
  asset_files : List String
deriving DecidableEq

/-- A per-origin bucket of the index: `{"asset_ids": [], "directory": ""}`. -/
structure OriginBucket where
  asset_ids : List String
  directory : String
deriving DecidableEq

/-- The per-asset entry of the index:
`{"type": ..., "file": ..., "position": ..., "origin": ..., "tags": ...}`. -/
structure AssetInfo where
  ty : String
  file : String
  position : Nat
  origin : String
  tags : List String
deriving DecidableEq

/-- The per-spec entry of the index: `{"type": ..., "file": ..., "tag": ...}`. -/
structure SpecInfo where
  ty : String
  file : String
  tag : String
deriving DecidableEq

/-- `TrendifyIndex` from `file_storage.py`, with its four dict fields.
Tags are already converted to strings (`str(tag)` in the source). -/
structure TrendifyIndex where
  tags : List (String × TagBucket)
  origins : List (String × OriginBucket)
  assets : List (String × AssetInfo)
  specs : List (String × SpecInfo)
deriving DecidableEq

/-- A fresh `TrendifyIndex()` with all four maps empty. -/
def emptyIndex : TrendifyIndex := ⟨[], [], [], []⟩

/-- The body of the `for tag in str_tags` loop of `TrendifyIndex.add_asset`:
create the bucket if the tag is new, then append the asset id to the
bucket unless it is already listed. -/
def updateTagForAsset (tags : List (String × TagBucket)) (asset_id tag : String) :
    List (String × TagBucket) :=
  let bucket := (lookupA tags tag).getD ⟨[], [], []⟩
  let bucket :=
    if bucket.asset_ids.contains asset_id then bucket
    else { bucket with asset_ids := bucket.asset_ids ++ [asset_id] }
  setA tags tag bucket

/-- `TrendifyIndex.add_asset`: record the asset entry, then append the id
to every tag bucket and to the origin bucket (creating buckets on demand,
skipping duplicate ids). -/
def add_asset (idx : TrendifyIndex) (asset_id asset_type file_path : String)
    (position : Nat) (origin : String) (tags : List String) : TrendifyIndex :=
  let assets' := setA idx.assets asset_id ⟨asset_type, file_path, position, origin, tags⟩
  let tags' := tags.foldl (fun ts tag => updateTagForAsset ts asset_id tag) idx.tags
  let ob := (lookupA idx.origins origin).getD ⟨[], ""⟩
  let ob :=
    if ob.asset_ids.contains asset_id then ob
    else { ob with asset_ids := ob.asset_ids ++ [asset_id] }
  ⟨tags', setA idx.origins origin ob, assets', idx.specs⟩

/-- `TrendifyIndex.add_spec`: record the spec entry, then append the id
to the tag bucket (creating it on demand, skipping duplicates). -/
def add_spec (idx : TrendifyIndex) (spec_id spec_type file_path tag : String) :
    TrendifyIndex :=
  let specs' := setA idx.specs spec_id ⟨spec_type, file_path, tag⟩
  let bucket := (lookupA idx.tags tag).getD ⟨[], [], []⟩
  let bucket :=
    if bucket.spec_ids.contains spec_id then bucket
    else { bucket with spec_ids := bucket.spec_ids ++ [spec_id] }
  ⟨setA idx.tags tag bucket, idx.origins, idx.assets, specs'⟩

/-- `TrendifyIndex.add_asset_file`: append the file path to the tag
bucket's `asset_files` list (creating the bucket on demand, skipping
duplicates). -/
def add_asset_file (idx : TrendifyIndex) (file_path tag : String) : TrendifyIndex :=
  let bucket := (lookupA idx.tags tag).getD ⟨[], [], []⟩
  let bucket :=
    if bucket.asset_files.contains file_path then bucket
    else { bucket with asset_files := bucket.asset_files ++ [file_path] }
  ⟨setA idx.tags tag bucket, idx.origins, idx.assets, idx.specs⟩

/-- `TrendifyIndex.get_asset_ids_by_tag`: empty list when the tag has no
bucket, otherwise the bucket's `asset_ids`. -/
def get_asset_ids_by_tag (idx : TrendifyIndex) (tag : String) : List String :=
  match lookupA idx.tags tag with
  | none => []
  | some b => b.asset_ids

/-- `TrendifyIndex.get_asset_ids_by_origin`: empty list when the origin
is unknown, otherwise the origin bucket's `asset_ids`. -/
def get_asset_ids_by_origin (idx : TrendifyIndex) (origin : String) : List String :=
  match lookupA idx.origins origin with
  | none => []
  | some b => b.asset_ids

/-- `TrendifyIndex.get_spec_ids_by_tag`: empty list when the tag has no
bucket, otherwise the bucket's `spec_ids`. -/
def get_spec_ids_by_tag (idx : TrendifyIndex) (tag : String) : List String :=
  match lookupA idx.tags tag with
  | none => []
  | some b => b.spec_ids

/-- One call to a mutating `TrendifyIndex` method. -/
inductive IndexOp where
  | addAsset (asset_id asset_type file_path : String) (position : Nat)
      (origin : String) (tags : List String)
  | addSpec (spec_id spec_type file_path tag : String)
  | addAssetFile (file_path tag : String)

/-- Apply one mutating call to the index. -/
def applyOp (idx : TrendifyIndex) : IndexOp → TrendifyIndex
  | .addAsset asset_id asset_type file_path position origin tags =>
      add_asset idx asset_id asset_type file_path position origin tags
  | .addSpec spec_id spec_type file_path tag =>
      add_spec idx spec_id spec_type file_path tag
  | .addAssetFile file_path tag => add_asset_file idx file_path tag

/-- Apply a sequence of mutating calls, oldest first. -/
def applyOps (ops : List IndexOp) (idx : TrendifyIndex) : TrendifyIndex :=
  ops.foldl applyOp idx

/-- Referential integrity of the index: every asset id listed in a tag
bucket or an origin bucket is a key of the `assets` map, and every spec
id listed in a tag bucket is a key of the `specs` map. -/
def IndexIntegrity (idx : TrendifyIndex) : Prop :=
  (∀ p ∈ idx.tags, ∀ a ∈ p.2.asset_ids, (lookupA idx.assets a).isSome) ∧
  (∀ p ∈ idx.origins, ∀ a ∈ p.2.asset_ids, (lookupA idx.assets a).isSome) ∧
  (∀ p ∈ idx.tags, ∀ s ∈ p.2.spec_ids, (lookupA idx.specs s).isSome)

/-- A data asset as the manager and the index observe it: its runtime
type name (`asset_type`) and its tags (already stringified). -/
structure AssetL where
  asset_type : String
  tags : List String
deriving DecidableEq

/-- `AssetMetadata` as built by `AssetCollection.create`. -/
structure AssetMetadata where
  origin_id : String
  original_dir : String
  asset_count : Nat
  asset_type_counts : List (String × Nat)
  tag_counts : List (String × Nat)
deriving DecidableEq

/-- `AssetCollection` from `file_storage.py`: metadata plus the ordered
asset list of one origin document. -/
structure AssetCollection where
  metadata : AssetMetadata
  assets : List AssetL
deriving DecidableEq

/-- `counts[k] = counts.get(k, 0) + 1`. -/
def bumpCount (m : List (String × Nat)) (k : String) : List (String × Nat) :=
  setA m k ((lookupA m k).getD 0 + 1)

/-- `AssetCollection.create`: count asset types and tags, then assemble
the metadata and the collection. -/
def AssetCollection.create (origin_id original_dir : String) (assets : List AssetL) :
    AssetCollection :=
  let type_counts := assets.foldl (fun m a => bumpCount m a.asset_type) []
  let tag_counts := assets.foldl (fun m a => a.tags.foldl (fun m' t => bumpCount m' t) m) []
  ⟨⟨origin_id, original_dir, assets.length, type_counts, tag_counts⟩, assets⟩

/-- A product/asset specification as the manager observes it: its class
name and its tag. -/
structure ProductSpecL where
  spec_type : String
  tag : String
deriving DecidableEq

/-- The mutable state of a `TrendifyManager` together with the files it
owns on disk.  `fs` maps an asset-file path (relative to the output root)
to the written `AssetCollection`; `spec_files` likewise for spec files.
The lazily loaded `_index` is embedded as an always-present index (its
load-on-first-access is not exercised by the claims), and the spec
registry is kept as the list of specs added to it. -/
structure ManagerState where
  index : TrendifyIndex
  file_cache : List (String × AssetCollection)
  max_cache_size : Nat
  fs : List (String × AssetCollection)
  spec_files : List (String × List ProductSpecL)
  registry : List ProductSpecL
  log : List String
deriving DecidableEq

/-- The external inputs of `_get_origin_id`: the directory's base name
(`input_dir.name`) and Python's string hash of the resolved path. -/
structure FsEnv where
  dirName : String → String
  pathHash : String → Nat

/-- Format a number as Python `f"{n:04d}"` does for `0 <= n < 10000`. -/
def pad4 (n : Nat) : String :=
  let s := toString n
  String.mk (List.replicate (4 - s.length) '0') ++ s

/-- `TrendifyManager._get_origin_id`: `f"{dir_name}_{path_hash % 10000:04d}"`. -/
def get_origin_id (env : FsEnv) (input_dir : String) : String :=
  env.dirName input_dir ++ "_" ++ pad4 (env.pathHash input_dir % 10000)

/-- Relative path of an origin's directory (`products/by_origin/<origin_id>`),
per `TrendifyFileManager.get_origin_dir`. -/
def origin_dir_path (origin_id : String) : String :=
  "products/by_origin/" ++ origin_id

/-- Relative path of the per-origin asset document. -/
def asset_file_path (fname origin_id : String) : String :=
  origin_dir_path origin_id ++ "/" ++ fname

/-- Relative path of a spec file (`specs/<spec_type>/<origin_id>.json`),
per `TrendifyFileManager.get_spec_file`. -/
def spec_file_path (spec_type origin_id : String) : String :=
  "specs/" ++ spec_type ++ "/" ++ origin_id ++ ".json"

/-- The caller-supplied asset generator: per input directory it returns
`(asset_specs, assets)` or raises. -/
def AssetGenerator : Type :=
  String → Except String (List ProductSpecL × List AssetL)

/-- Grouping of specs by `spec.__class__.__name__` in `_save_asset_specs`,
preserving first-seen type order and per-type spec order. -/
def groupSpecsByType (specs : List ProductSpecL) : List (String × List ProductSpecL) :=
  specs.foldl (fun m s => setA m s.spec_type ((lookupA m s.spec_type).getD [] ++ [s])) []

/-- `TrendifyManager._save_asset_specs`: write one file per spec type and
add each spec to the index under the id `{origin_id}_{spec_type}_{i}`. -/
def save_asset_specs (st : ManagerState) (asset_specs : List ProductSpecL)
    (origin_id : String) : ManagerState :=
  (groupSpecsByType asset_specs).foldl
    (fun st' p =>
      let spec_file := spec_file_path p.1 origin_id
      let st' := { st' with spec_files := setA st'.spec_files spec_file p.2 }
      (p.2.enum).foldl
        (fun st'' iq =>
          let spec_id := origin_id ++ "_" ++ p.1 ++ "_" ++ toString iq.1
          { st'' with index := add_spec st''.index spec_id p.1 spec_file iq.2.tag })
        st')
    st

/-- `TrendifyManager.process_origin_directory`: allocate the origin id;
if the generator raises, log the error and still return the id with the
rest of the state untouched; otherwise write the origin's asset document
and register/save its specs. -/
def process_origin_directory (env : FsEnv) (gen : AssetGenerator) (fname : String)
    (st : ManagerState) (input_dir : String) : String × ManagerState :=
  let origin_id := get_origin_id env input_dir
  match gen input_dir with
  | .error e =>
    (origin_id,
     { st with log := st.log ++ ["Error processing directory " ++ input_dir ++ ": " ++ e] })
  | .ok (asset_specs, assets) =>
    let assets_model := AssetCollection.create origin_id input_dir assets
    let st := { st with fs := setA st.fs (asset_file_path fname origin_id) assets_model }
    let st :=
      if asset_specs.isEmpty then st
      else
        let st := { st with registry := st.registry ++ asset_specs }
        save_asset_specs st asset_specs origin_id
    (origin_id, st)

/-- `TrendifyManager.process_origins`, sequential branch (`n_procs == 1`):
process each directory in order, collecting the returned origin ids.  The
parallel branch is an order-preserving map over the same per-directory
function and returns the same id list. -/
def process_origins (env : FsEnv) (gen : AssetGenerator) (fname : String)
    (st : ManagerState) : List String → List String × ManagerState
  | [] => ([], st)
  | d :: ds =>
    let r := process_origin_directory env gen fname st d
    let rest := process_origins env gen fname r.2 ds
    (r.1 :: rest.1, rest.2)

/-- `TrendifyManager._load_assets_file`: answer from the cache when the
path is cached; otherwise read the file (an unreadable file raises),
insert the loaded collection, and if the cache now exceeds
`_max_cache_size` evict the earliest-inserted entry
(`self._file_cache.pop(next(iter(self._file_cache)))`). -/
def load_assets_file (st : ManagerState) (file_path : String) :
    Except String (AssetCollection × ManagerState) :=
  match lookupA st.file_cache file_path with
  | some m => .ok (m, st)
  | none =>
    match lookupA st.fs file_path with
    | none => .error ("Failed to open " ++ file_path)
    | some m =>
      let cache := setA st.file_cache file_path m
      let cache := if st.max_cache_size < cache.length then cache.drop 1 else cache
      .ok (m, { st with file_cache := cache })

/-- `TrendifyManager.clear_cache`: drop all cached collections. -/
def clear_cache (st : ManagerState) : ManagerState :=
  { st with file_cache := [] }

/-- `TrendifyManager.get_asset_by_id`: `None` when the id is not indexed;
otherwise load the backing file and return the asset at the indexed
position (an out-of-range position raises `IndexError`). -/
def get_asset_by_id (st : ManagerState) (asset_id : String) :
    Except String (Option AssetL × ManagerState) :=
  match lookupA st.index.assets asset_id with
  | none => .ok (none, st)
  | some info =>
    match load_assets_file st info.file with
    | .error e => .error e
    | .ok (m, st') =>
      match m.assets.get? info.position with
      | none => .error "IndexError"
      | some a => .ok (some a, st')

/-- The `asset_info["type"] != asset_type.__name__` pre-filter of the
manager's query methods (`None` matches everything). -/
def typeNameMatches (asset_type : Option String) (info : AssetInfo) : Bool :=
  match asset_type with
  | none => true
  | some T => info.ty == T

/-- `file_positions[file_path].append(position)` with bucket creation. -/
def addPos (m : List (String × List Nat)) (file : String) (pos : Nat) :
    List (String × List Nat) :=
  setA m file ((lookupA m file).getD [] ++ [pos])

/-- The grouping loop of `get_assets_by_origin` / `get_assets_by_tag`:
group the candidate positions by backing file, skipping ids whose type
name does not match (a dangling id raises `KeyError`). -/
def collect_file_positions (assets : List (String × AssetInfo))
    (asset_type : Option String) : List String → Except String (List (String × List Nat)) :=
  let step := fun (m : List (String × List Nat)) (aid : String) =>
    match lookupA assets aid with
    | none => Except.error ("KeyError: " ++ aid)
    | some info =>
      if typeNameMatches asset_type info then Except.ok (addPos m info.file info.position)
      else Except.ok m
  fun ids => ids.foldlM step []

/-- The `isinstance(asset, asset_type)` filter applied after loading
(`None` matches everything); `sub` is the abstract subclass relation. -/
def isinstOk (sub : String → String → Bool) (asset_type : Option String) (a : AssetL) : Bool :=
  match asset_type with
  | none => true
  | some T => sub a.asset_type T

/-- The loading loop of the manager's query methods: load each grouped
file through the cache and collect the assets at the recorded positions
that pass the `isinstance` filter, in stored order. -/
def load_positions (sub : String → String → Bool) (asset_type : Option String) :
    List (String × List Nat) → ManagerState → Except String (List AssetL × ManagerState)
  | [], st => .ok ([], st)
  | (fp, positions) :: rest, st =>
    match load_assets_file st fp with
    | .error e => .error e
    | .ok (m, st') =>
      match positions.foldlM
          (fun acc pos =>
            match m.assets.get? pos with
            | none => Except.error "IndexError"
            | some a => Except.ok (acc ++ (if isinstOk sub asset_type a then [a] else [])))
          ([] : List AssetL) with
      | .error e => .error e
      | .ok here =>
        match load_positions sub asset_type rest st' with
        | .error e => .error e
        | .ok (more, st'') => .ok (here ++ more, st'')

/-- `TrendifyManager.get_assets_by_origin`: resolve candidate ids via the
index, group them by backing file, then load and filter. -/
def get_assets_by_origin (sub : String → String → Bool) (st : ManagerState)
    (origin_id : String) (asset_type : Option String) :
    Except String (List AssetL × ManagerState) :=
  match collect_file_positions st.index.assets asset_type
      (get_asset_ids_by_origin st.index origin_id) with
  | .error e => .error e
  | .ok fps => load_positions sub asset_type fps st

/-- `TypeInfo` from `type_info.py`: module spec, base name, ordered
generic parameters, and the per-descriptor `use_cache` flag.  The
`version`, `alias` and `extra_args` fields are carried by the source
class but are never read by `cache_key` or by `get_import`'s control flow
(the `Annotated` metadata they feed is inside the abstracted parameter
application), so they are omitted here. -/
inductive TypeInfoL where
  | mk (module_spec base_name : String) (type_params : List TypeInfoL) (use_cache : Bool)

mutual

/-- Decidable equality of descriptors (structural and recursive over the
parameter list, as in the source's `__eq__`/`__hash__`). -/
def decEqTI : (a b : TypeInfoL) → Decidable (a = b)
  | .mk m b ps u, .mk m' b' ps' u' =>
    match String.decEq m m', String.decEq b b', decEqTIList ps ps', Bool.decEq u u' with
    | isTrue h1, isTrue h2, isTrue h3, isTrue h4 => isTrue (by rw [h1, h2, h3, h4])
    | isFalse h, _, _, _ => isFalse (by intro he; cases he; exact h rfl)
    | _, isFalse h, _, _ => isFalse (by intro he; cases he; exact h rfl)
    | _, _, isFalse h, _ => isFalse (by intro he; cases he; exact h rfl)
    | _, _, _, isFalse h => isFalse (by intro he; cases he; exact h rfl)

/-- Decidable equality of descriptor lists. -/
def decEqTIList : (l l' : List TypeInfoL) → Decidable (l = l')
  | [], [] => isTrue rfl
  | [], _ :: _ => isFalse (by intro he; cases he)
  | _ :: _, [] => isFalse (by intro he; cases he)
  | a :: l, b :: l' =>
    match decEqTI a b, decEqTIList l l' with
    | isTrue h1, isTrue h2 => isTrue (by rw [h1, h2])
    | isFalse h, _ => isFalse (by intro he; cases he; exact h rfl)
    | _, isFalse h => isFalse (by intro he; cases he; exact h rfl)

end

instance : DecidableEq TypeInfoL := decEqTI

/-- The `module_spec` field. -/
def TypeInfoL.module_spec : TypeInfoL → String
  | .mk m _ _ _ => m

/-- The `base_name` field. -/
def TypeInfoL.base_name : TypeInfoL → String
  | .mk _ b _ _ => b

/-- The `type_params` field (`None` and `[]` behave identically in the
source — both are falsy — so only the list form is kept). -/
def TypeInfoL.type_params : TypeInfoL → List TypeInfoL
  | .mk _ _ ps _ => ps

/-- The `use_cache` field. -/
def TypeInfoL.use_cache : TypeInfoL → Bool
  | .mk _ _ _ u => u

/-- `",".join(...)`. -/
def joinComma : List String → String
  | [] => ""
  | [k] => k
  | k :: ks => k ++ "," ++ joinComma ks

mutual

/-- `TypeInfo.cache_key`: `module_spec:base_name` for a plain descriptor,
`module_spec:base_name[param,...]` recursively when there are type
parameters. -/
def cache_key : TypeInfoL → String
  | .mk m b ps _ =>
    match ps with
    | [] => m ++ ":" ++ b
    | _ :: _ => m ++ ":" ++ b ++ "[" ++ joinComma (cache_keyList ps) ++ "]"

/-- The cache keys of a parameter list, in order. -/
def cache_keyList : List TypeInfoL → List String
  | [] => []
  | p :: ps => cache_key p :: cache_keyList ps

end

/-- `base_name.split("[")[0]`: the base name with any generic suffix
stripped. -/
def strip_generic_suffix (s : String) : String :=
  String.mk (s.data.takeWhile (fun c => c ≠ '['))

/-- The import machinery `get_import` drives, abstracted as a
deterministic per-process environment over an abstract object type:
module import (covering both `import_module` and the file-path loader
with its `sys.modules` reuse), attribute access (covering the dotted
path loop), and parameter application (covering both the `typing`
special cases and custom-generic subscripting; `none` stands for the
exceptions those blocks catch, after which the source falls back to the
unparametrized base object). -/
structure ImportEnv (Obj : Type) where
  importModule : String → Except String Obj
  getAttr : Obj → String → Except String Obj
  applyParams : Obj → List Obj → Option Obj

/-- The process-wide `TypeInfo._import_cache`, keyed by `cache_key`. -/
def ImportCache (Obj : Type) : Type := List (String × Obj)

mutual

/-- `TypeInfo.get_import`: consult the cache first (when `use_cache` is
set and no refresh is requested); otherwise import the module, fetch the
attribute, recursively resolve every type parameter (threading the
cache), apply the parameters — falling back to the bare base object when
application fails with a caught exception — and store every successful
result in the cache under `cache_key` (failures are raised and never
cached). -/
def get_import {Obj : Type} (env : ImportEnv Obj) (d : TypeInfoL) (refresh : Bool)
    (cache : ImportCache Obj) : Except String Obj × ImportCache Obj :=
  match d with
  | .mk m b ps u =>
    match (if u && !refresh then lookupA cache (cache_key (.mk m b ps u)) else none) with
    | some v => (.ok v, cache)
    | none =>
      let base_name := strip_generic_suffix b
      match env.importModule m with
      | .error e => (.error ("Failed to import " ++ m ++ "." ++ base_name ++ ": " ++ e), cache)
      | .ok M =>
        if base_name = "" then
          (.ok M, if u then setA cache (cache_key (.mk m b ps u)) M else cache)
        else
          match env.getAttr M base_name with
          | .error e =>
            (.error ("Failed to import " ++ m ++ "." ++ base_name ++ ": " ++ e), cache)
          | .ok obj =>
            match ps with
            | [] => (.ok obj, if u then setA cache (cache_key (.mk m b [] u)) obj else cache)
            | p :: ps' =>
              match get_importList env (p :: ps') cache with
              | (.error e, cache') => (.error e, cache')
              | (.ok params, cache') =>
                let result :=
                  match env.applyParams obj params with
                  | some r => r
                  | none => obj
                (.ok result,
                 if u then setA cache' (cache_key (.mk m b (p :: ps') u)) result else cache')

/-- `[param.get_import() for param in self.type_params]`: resolve each
parameter in order with the default `refresh=False`, threading the cache;
the first failure propagates. -/
def get_importList {Obj : Type} (env : ImportEnv Obj) (ps : List TypeInfoL)
    (cache : ImportCache Obj) : Except String (List Obj) × ImportCache Obj :=
  match ps with
  | [] => (.ok [], cache)
  | p :: rest =>
    match get_import env p false cache with
    | (.error e, cache') => (.error e, cache')
    | (.ok v, cache') =>
      match get_importList env rest cache' with
      | (.error e, cache'') => (.error e, cache'')
      | (.ok vs, cache'') => (.ok (v :: vs), cache'')

end

/-- Run a sequence of `get_import` calls with `refresh=False`, keeping
only the final cache state. -/
def runImports {Obj : Type} (env : ImportEnv Obj) (ds : List TypeInfoL)
    (cache : ImportCache Obj) : ImportCache Obj :=
  ds.foldl (fun c d => (get_import env d false c).2) cache

/-- A pydantic field value (the scalar universe the claims exercise;
`vnone` is Python `None`). -/
inductive Value where
  | vstr (s : String)
  | vint (n : Int)
  | vbool (b : Bool)
  | vnone
deriving DecidableEq

/-- A pydantic field annotation. -/
inductive FieldType where
  | tstr
  | tint
  | tbool
  | topt
deriving DecidableEq

/-- Pydantic's per-field validation: does the value fit the annotation?
(`topt` is an optional field, which also accepts `None`.) -/
def typecheck : FieldType → Value → Bool
  | .tstr, .vstr _ => true
  | .tint, .vint _ => true
  | .tbool, .vbool _ => true
  | .topt, .vstr _ => true
  | .topt, .vint _ => true
  | .topt, .vnone => true
  | _, _ => false

/-- A model class as the serialization layer observes it: its
`__module__`, its `__name__`, the names along its MRO (`ancestors`
contains the class's own name, so `isinstance`/`issubclass` are
membership tests), and its pydantic field schema in declaration order. -/
structure ModelClass where
  module : String
  name : String
  ancestors : List String
  schema : List (String × FieldType)
deriving DecidableEq

/-- The `SerializableModel` base class itself (its own pydantic schema is
empty; `version` is a `ClassVar`, not a field). -/
def SerializableModelBase : ModelClass :=
  ⟨"typeflow.serialization.serializable_model", "SerializableModel",
   ["SerializableModel"], []⟩

/-- A runtime model instance: its concrete class, its Python object
identity (`id(self)`), and its field dict in schema order. -/
structure RecordL where
  cls : ModelClass
  objId : Nat
  fields : List (String × Value)
deriving DecidableEq

/-- An entry of a serialized document: a plain field value or the
embedded `type_info` descriptor. -/
inductive DocVal where
  | prim (v : Value)
  | tinfo (ti : TypeInfoL)
deriving DecidableEq

/-- A serialized document (`model_dump` output / `model_validate` input). -/
abbrev Doc : Type := List (String × DocVal)

/-- `TypeInfo.from_obj` on an instance of a plain (non-generic) model
class: `module_spec = cls.__module__`, `base_name = cls.__name__`, no
type parameters, caching enabled by default.  This is what the
`type_info` computed field embeds. -/
def type_info_of (c : ModelClass) : TypeInfoL :=
  .mk c.module c.name [] true

/-- `model_dump` of a `SerializableModel`: every pydantic field plus the
`type_info` computed field, which is always embedded. -/
def model_dump (r : RecordL) : Doc :=
  r.fields.map (fun p => (p.1, DocVal.prim p.2)) ++
    [("type_info", DocVal.tinfo (type_info_of r.cls))]

/-- Read the fields demanded by a class schema out of a document, in
schema order; a missing field, a `type_info` descriptor in a field
position, or an ill-typed value is a validation error. -/
def fieldsFromDoc : List (String × FieldType) → Doc → Except String (List (String × Value))
  | [], _ => .ok []
  | (fname, ft) :: rest, doc =>
    match lookupA doc fname with
    | some (DocVal.prim v) =>
      if typecheck ft v then
        match fieldsFromDoc rest doc with
        | .ok fs => .ok ((fname, v) :: fs)
        | .error e => .error e
      else .error ("validation error: " ++ fname)
    | _ => .error ("missing field: " ++ fname)

/-- Plain pydantic validation of a document against a known class
(`super().model_validate(obj)`): check and extract the schema fields
(extra keys — including the `type_info` computed field — are ignored)
and construct a fresh instance of that class. -/
def pydantic_validate (c : ModelClass) (doc : Doc) : Except String RecordL :=
  match fieldsFromDoc c.schema doc with
  | .error e => .error e
  | .ok fs => .ok ⟨c, 0, fs⟩

/-- The resolution step `type_info.get_import()` as `model_validate` uses
it, abstracted as a deterministic environment from descriptors to model
classes; `.error` covers both a raised `ImportError` and a resolved
object that is not a class (on which the subsequent `issubclass` raises
`TypeError` — caught by the same `except` block). -/
def ResolveEnv : Type := TypeInfoL → Except String ModelClass

/-- `SerializableModel.model_validate` on a dict, with a fuel bound for
the re-dispatch recursion (one re-dispatch happens per call chain, so any
positive fuel is enough on the paths the claims exercise): if the
document embeds a `type_info` and the target class is the base class or
has a different (generic-stripped) name, try to resolve the descriptor —
falling back to plain validation against the declared class if resolution
fails or the resolved class is not a `SerializableModel` subclass
(`print` warning, no exception) — and re-dispatch to the resolved class
when it differs from the declared one. -/
def model_validate_doc (renv : ResolveEnv) : Nat → ModelClass → Doc → Except String RecordL
  | fuel, c, d =>
    match lookupA d "type_info" with
    | some (DocVal.tinfo ti) =>
      if c = SerializableModelBase ∨
          strip_generic_suffix c.name ≠ strip_generic_suffix ti.base_name then
        match renv ti with
        | .ok actual =>
          if "SerializableModel" ∉ actual.ancestors then
            pydantic_validate c d
          else if actual ≠ c then
            match fuel with
            | 0 => .error "recursion limit"
            | fuel' + 1 => model_validate_doc renv fuel' actual d
          else pydantic_validate c d
        | .error _ => pydantic_validate c d
      else pydantic_validate c d
    | some (DocVal.prim _) => .error "type_info is not a TypeInfo or a dict"
    | none => pydantic_validate c d

/-- The input of `model_validate`: an already-constructed model instance
or a dict. -/
inductive MVInput where
  | inst (r : RecordL)
  | doc (d : Doc)

/-- `SerializableModel.model_validate`: an instance of the target class
(or a subclass) is returned unchanged; any other instance is dumped to a
dict first; dicts go through type-info dispatch. -/
def model_validate (renv : ResolveEnv) (fuel : Nat) (c : ModelClass) :
    MVInput → Except String RecordL
  | .inst r =>
    if c.name ∈ r.cls.ancestors then .ok r
    else model_validate_doc renv fuel c (model_dump r)
  | .doc d => model_validate_doc renv fuel c d

/-- `SerializableModel.__hash__`: `id(self)` — object identity. -/
def ser_hash (r : RecordL) : Nat :=
  r.objId

/-- Pydantic `BaseModel.__eq__` (not overridden by `SerializableModel`):
same class and equal field dicts; object identity plays no part. -/
def pydantic_eq (a b : RecordL) : Bool :=
  decide (a.cls = b.cls) && decide (a.fields = b.fields)

/-- `self.name` of a `NamedModel`, normalizing the "no name" cases: a
missing `name` field or an explicit `None` both count as unnamed. -/
def named_name (r : RecordL) : Option Value :=
  match lookupA r.fields "name" with
  | some Value.vnone => none
  | some v => some v
  | none => none

/-- `NamedModel.__eq__`: `False` against a non-`NamedModel`; pydantic
field equality when either name is `None`; otherwise same concrete type
and equal names. -/
def named_eq (a b : RecordL) : Bool :=
  if "NamedModel" ∉ b.cls.ancestors then false
  else
    match named_name a, named_name b with
    | some na, some nb => decide (a.cls = b.cls) && decide (na = nb)
    | _, _ => pydantic_eq a b

/-- `NamedModel.__hash__`: `id(self)` when the name is `None`, otherwise
`hash((type(self).__name__, self.name))`; `hashTN` is Python's (opaque
but deterministic) tuple hash. -/
def named_hash (hashTN : String → Value → Nat) (r : RecordL) : Nat :=
  match named_name r with
  | none => r.objId
  | some n => hashTN r.cls.name n

/-- Pointwise agreement of a field dict with a class schema: same names
in order, every value well-typed.  This is what holds of any instance
pydantic has actually constructed. -/
def fieldsMatchSchema : List (String × FieldType) → List (String × Value) → Bool
  | [], [] => true
  | (n, t) :: sch, (n', v) :: fs =>
    decide (n = n') && typecheck t v && fieldsMatchSchema sch fs
  | _, _ => false

/-- An `isinstance` relation that accepts everything (used for concrete
evaluations below). -/
def subAll : String → String → Bool := fun _ _ => true

/-- A one-element collection, concrete input for C2. -/
def cexColl : DataProductCollection := ⟨[⟨["a"], "Point2D"⟩]⟩

/-- A concrete `SerializableModel` subclass with one `int` field. -/
def cexClass : ModelClass :=
  ⟨"mymod", "MyRecord", ["MyRecord", "SerializableModel"], [("x", FieldType.tint)]⟩

/-- A concrete `NamedModel` subclass. -/
def cexNamedClass : ModelClass :=
  ⟨"mymod", "NamedThing", ["NamedThing", "NamedModel", "SerializableModel"],
   [("name", FieldType.topt), ("x", FieldType.tint)]⟩

/-- A descriptor whose target cannot be imported. -/
def cexTi : TypeInfoL := .mk "mymod" "Missing" [] true

/-- A document embedding the unresolvable descriptor. -/
def cexDoc : Doc := [("type_info", DocVal.tinfo cexTi)]

/-- A resolution environment in which every import fails. -/
def renvFail : ResolveEnv := fun _ => .error "ImportError: module not found"

/-- A resolution environment that resolves `cexClass`'s descriptor to
`cexClass` and fails on everything else. -/
def renvGood : ResolveEnv :=
  fun ti => if ti = type_info_of cexClass then .ok cexClass else .error "ImportError"

/-- Two structurally equal value records with distinct object identities. -/
def rv1 : RecordL := ⟨cexClass, 0, [("x", Value.vint 3)]⟩

/-- The same record value at a different memory address. -/
def rv2 : RecordL := ⟨cexClass, 1, [("x", Value.vint 3)]⟩

/-- A concrete record of class `cexClass`, input for the C1 witness. -/
def rW : RecordL := ⟨cexClass, 5, [("x", Value.vint 3)]⟩

/-- A concrete asset collection for the cache scenarios. -/
def collA : AssetCollection :=
  AssetCollection.create "o1" "/in/o1" [⟨"Point2D", ["a"]⟩]

/-- A second concrete asset collection. -/
def collB : AssetCollection := AssetCollection.create "o2" "/in/o2" []

/-- A manager state whose cache bound is 1 and whose cache is full with
file `fA`, while files `fA` and `fB` both exist on disk. -/
def stC6 : ManagerState :=
  ⟨emptyIndex, [("fA", collA)], 1, [("fA", collA), ("fB", collB)], [], [], []⟩

/-- A manager state with an empty index and empty cache. -/
def st0 : ManagerState := ⟨emptyIndex, [], 20, [], [], [], []⟩

/-- A concrete filesystem environment for origin-id generation. -/
def envW : FsEnv := ⟨fun s => s, fun _ => 7⟩

/-- A generator that raises on every directory. -/
def genFail : AssetGenerator := fun _ => .error "boom"

/-- A concrete import environment over `Nat` objects. -/
def envImp : ImportEnv Nat :=
  ⟨fun _ => .ok 1, fun _ _ => .ok 2, fun _ _ => some 3⟩

/-- A concrete plain descriptor with caching enabled. -/
def tiW : TypeInfoL := .mk "m" "C" [] true

mutual

/-- Every item `flatten` yields is atomic. -/
theorem flatten_mem_atomic : ∀ (v : PyVal), ∀ x ∈ flatten v, atomicItem x = true
  | .iterable xs => by
    intro x hx
    exact flattenList_mem_atomic xs x (by simpa [flatten] using hx)
  | .scalar n => by intro x hx; simp [flatten] at hx; subst hx; rfl
  | .pstr s => by intro x hx; simp [flatten] at hx; subst hx; rfl
  | .pbytes b => by intro x hx; simp [flatten] at hx; subst hx; rfl
  | .product p => by intro x hx; simp [flatten] at hx; subst hx; rfl

/-- Every item `flattenList` yields is atomic. -/
theorem flattenList_mem_atomic : ∀ (l : List PyVal), ∀ x ∈ flattenList l, atomicItem x = true
  | [] => by intro x hx; simp [flattenList] at hx
  | y :: ys => by
    intro x hx
    simp only [flattenList, List.mem_append] at hx
    rcases hx with h | h
    · exact flatten_mem_atomic y x h
    · exact flattenList_mem_atomic ys x h

end

/-- `flattenList` is `flatMap flatten`. -/
theorem flattenList_eq_flatMap : ∀ (l : List PyVal), flattenList l = l.flatMap flatten
  | [] => rfl
  | y :: ys => by simp [flattenList, List.flatMap_cons, flattenList_eq_flatMap ys]

/-- C8 — Flatten atomicity and order: `flatten` yields only atomic items
(an item being atomic iff it is not an iterable or is a `str`, `bytes`, or
`DataProduct` instance, which coincides with the negation of the source's
`should_be_flattened`); an atomic input is yielded unchanged as a
one-element sequence; and an iterable is expanded to the concatenation,
in left-to-right order, of the flattenings of its members. -/
theorem C8_flatten_atomic_leaves (v : PyVal) :
    (∀ x ∈ flatten v, atomicItem x = true)
    ∧ (atomicItem v = true → flatten v = [v])
    ∧ (∀ xs, v = PyVal.iterable xs → flatten v = xs.flatMap flatten)
    ∧ atomicItem v = !(should_be_flattened v) := by
  refine ⟨flatten_mem_atomic v, ?_, ?_, ?_⟩
  · intro h
    cases v with
    | iterable xs => simp [atomicItem, isIterable, isStrBytesOrProduct] at h
    | scalar n => rfl
    | pstr s => rfl
    | pbytes b => rfl
    | product p => rfl
  · intro xs hxs
    subst hxs
    simpa [flatten] using flattenList_eq_flatMap xs
  · cases v <;> rfl

/-- Concrete check of C8: a string is atomic and flattens to itself. -/
theorem C8_witness :
    atomicItem (PyVal.pstr "ab") = true ∧ flatten (PyVal.pstr "ab") = [PyVal.pstr "ab"] :=
  ⟨rfl, (C8_flatten_atomic_leaves (PyVal.pstr "ab")).2.1 rfl⟩

/-- C2 fails as stated: with `tag = None` and `object_type = None`,
`get_products` and `drop_products` both return the full element list, so
on a one-element collection they are neither disjoint nor a partition of
the original multiset. -/
theorem C2_counterexample :
    ¬ ((∀ e ∈ (get_products subAll cexColl none none).elements,
          e ∉ (drop_products subAll cexColl none none).elements)
       ∧ ((get_products subAll cexColl none none).elements ++
            (drop_products subAll cexColl none none).elements).Perm cexColl.elements) := by
  decide

/-- C2 — (amended) Complementary filtering: for every collection and every
argument pair with at least one filter present, `get_products` and
`drop_products` partition the collection's elements — the results are
disjoint and their concatenation is a permutation of (in fact, preserves
the multiset of) the original elements.  (When both arguments are `None`
the source returns a full copy from both methods, so the partition laws
do not apply to that case.) -/
theorem C2_partition (sub : String → String → Bool) (c : DataProductCollection)
    (tag : Option String) (object_type : Option String)
    (h : tag ≠ none ∨ object_type ≠ none) :
    (∀ e ∈ (get_products sub c tag object_type).elements,
       e ∉ (drop_products sub c tag object_type).elements)
    ∧ ((get_products sub c tag object_type).elements ++
         (drop_products sub c tag object_type).elements).Perm c.elements := by
  match tag, object_type with
  | none, none => simp at h
  | none, some T =>
    refine ⟨?_, List.filter_append_perm _ c.elements⟩
    intro e hin hdrop
    simp only [get_products, drop_products, List.mem_filter] at hin hdrop
    rw [hin.2] at hdrop
    simp at hdrop
  | some t, none =>
    refine ⟨?_, List.filter_append_perm _ c.elements⟩
    intro e hin hdrop
    simp only [get_products, drop_products, List.mem_filter] at hin hdrop
    rw [hin.2] at hdrop
    simp at hdrop
  | some t, some T =>
    refine ⟨?_, List.filter_append_perm _ c.elements⟩
    intro e hin hdrop
    simp only [get_products, drop_products, List.mem_filter] at hin hdrop
    rw [hin.2] at hdrop
    simp at hdrop

/-- Concrete check of the amended C2 on a one-element collection with a
tag filter. -/
theorem C2_partition_witness :
    (∀ e ∈ (get_products subAll cexColl (some "a") none).elements,
       e ∉ (drop_products subAll cexColl (some "a") none).elements)
    ∧ ((get_products subAll cexColl (some "a") none).elements ++
         (drop_products subAll cexColl (some "a") none).elements).Perm cexColl.elements :=
  C2_partition subAll cexColl (some "a") none (Or.inl (by decide))

/-- Updating a key makes it present with the new value. -/
theorem lookupA_setA_self {α : Type} : ∀ (l : List (String × α)) (k : String) (v : α),
    lookupA (setA l k v) k = some v
  | [], k, v => by simp [setA, lookupA]
  | (k', v') :: rest, k, v => by
    by_cases h : k' = k
    · simp [setA, lookupA, h]
    · simp [setA, lookupA, h, lookupA_setA_self rest k v]

/-- Updating one key leaves every other key's binding unchanged. -/
theorem lookupA_setA_ne {α : Type} : ∀ (l : List (String × α)) (k' k : String) (v : α),
    k' ≠ k → lookupA (setA l k' v) k = lookupA l k
  | [], k', k, v, h => by simp [setA, lookupA, h]
  | (k0, v0) :: rest, k', k, v, h => by
    by_cases h0 : k0 = k'
    · subst h0
      simp [setA, lookupA, h]
    · simp only [setA, if_neg h0, lookupA]
      by_cases h1 : k0 = k
      · simp [h1]
      · simp [h1, lookupA_setA_ne rest k' k v h]

/-- A present binding stays present (with the same value) across any
update. -/
theorem lookupA_setA_isSome {α : Type} (l : List (String × α)) (k' k : String) (v w : α)
    (h : lookupA l k = some w) : (lookupA (setA l k' v) k).isSome := by
  by_cases he : k' = k
  · subst he
    simp [lookupA_setA_self]
  · simp [lookupA_setA_ne l k' k v he, h]

/-- Every entry of an updated list is the new binding or an old entry. -/
theorem mem_setA {α : Type} : ∀ (l : List (String × α)) (k : String) (v : α),
    ∀ p ∈ setA l k v, p = (k, v) ∨ p ∈ l
  | [], k, v => by simp [setA]
  | (k0, v0) :: rest, k, v => by
    intro p hp
    by_cases h0 : k0 = k
    · simp only [setA, if_pos h0, List.mem_cons] at hp
      rcases hp with h | h
      · exact Or.inl h
      · exact Or.inr (List.mem_cons_of_mem _ h)
    · simp only [setA, if_neg h0, List.mem_cons] at hp
      rcases hp with h | h
      · exact Or.inr (by simp [h])
      · rcases mem_setA rest k v p h with h' | h'
        · exact Or.inl h'
        · exact Or.inr (List.mem_cons_of_mem _ h')

/-- A membership lookup on an entry of the list succeeds with some value. -/
theorem lookupA_isSome_of_mem {α : Type} : ∀ (l : List (String × α)) (k : String) (v : α),
    (k, v) ∈ l → (lookupA l k).isSome
  | [], k, v => by simp
  | (k0, v0) :: rest, k, v => by
    intro h
    rcases List.mem_cons.mp h with h | h
    · cases h
      simp [lookupA]
    · by_cases h0 : k0 = k
      · simp [lookupA, h0]
      · simp only [lookupA, if_neg h0]
        exact lookupA_isSome_of_mem rest k v h

/-- Lookup on an append scans the left list first. -/
theorem lookupA_append {α : Type} : ∀ (l₁ l₂ : List (String × α)) (k : String),
    lookupA (l₁ ++ l₂) k =
      (match lookupA l₁ k with
       | some v => some v
       | none => lookupA l₂ k)
  | [], l₂, k => by simp [lookupA]
  | (k0, v0) :: rest, l₂, k => by
    by_cases h0 : k0 = k
    · simp [lookupA, h0]
    · simp [lookupA, h0, lookupA_append rest l₂ k]

/-- A key outside the key list looks up to nothing. -/
theorem lookupA_eq_none_of_not_mem {α : Type} : ∀ (l : List (String × α)) (k : String),
    k ∉ keysA l → lookupA l k = none
  | [], k => by simp [lookupA]
  | (k0, v0) :: rest, k => by
    intro h
    simp only [keysA, List.map_cons, List.mem_cons] at h
    push_neg at h
    simp only [lookupA, if_neg (Ne.symm h.1)]
    exact lookupA_eq_none_of_not_mem rest k (by simpa [keysA] using h.2)

/-- Updating an absent key appends the new binding at the end. -/
theorem setA_eq_append_of_absent {α : Type} : ∀ (l : List (String × α)) (k : String) (v : α),
    lookupA l k = none → setA l k v = l ++ [(k, v)]
  | [], k, v, _ => rfl
  | (k0, v0) :: rest, k, v, h => by
    by_cases h0 : k0 = k
    · simp [lookupA, h0] at h
    · simp only [lookupA, if_neg h0] at h
      simp [setA, if_neg h0, setA_eq_append_of_absent rest k v h]

/-- C10 — Queries with unknown keys are total and silent: an unknown tag
yields an empty id list, an unknown origin yields an empty id list, and
an unknown asset id makes `get_asset_by_id` return `None` with the
manager state untouched (no exception is modelled on these paths, and the
index-level queries are pure functions of the index). -/
theorem C10_unknown_key_queries (idx : TrendifyIndex) (st : ManagerState)
    (tag origin asset_id : String) :
    (lookupA idx.tags tag = none → get_asset_ids_by_tag idx tag = [])
    ∧ (lookupA idx.origins origin = none → get_asset_ids_by_origin idx origin = [])
    ∧ (lookupA st.index.assets asset_id = none →
        get_asset_by_id st asset_id = .ok (none, st)) := by
  refine ⟨?_, ?_, ?_⟩
  · intro h
    simp [get_asset_ids_by_tag, h]
  · intro h
    simp [get_asset_ids_by_origin, h]
  · intro h
    simp [get_asset_by_id, h]

/-- Concrete check of C10 on the empty index and a fresh manager state. -/
theorem C10_witness :
    get_asset_ids_by_tag emptyIndex "a" = []
    ∧ get_asset_ids_by_origin emptyIndex "o" = []
    ∧ get_asset_by_id st0 "x" = .ok (none, st0) :=
  ⟨(C10_unknown_key_queries emptyIndex st0 "a" "o" "x").1 rfl,
   (C10_unknown_key_queries emptyIndex st0 "a" "o" "x").2.1 rfl,
   (C10_unknown_key_queries emptyIndex st0 "a" "o" "x").2.2 rfl⟩

/-- A successful lookup exhibits a member of the list. -/
theorem mem_of_lookupA {α : Type} : ∀ (l : List (String × α)) (k : String) (v : α),
    lookupA l k = some v → (k, v) ∈ l
  | [], k, v => by simp [lookupA]
  | (k0, v0) :: rest, k, v => by
    intro h
    by_cases h0 : k0 = k
    · subst h0
      simp [lookupA] at h
      simp [h]
    · simp only [lookupA, if_neg h0] at h
      exact List.mem_cons_of_mem _ (mem_of_lookupA rest k v h)

/-- A bucket predicate closed under the default bucket and under
appending the asset id survives `updateTagForAsset`. -/
theorem updateTagForAsset_inv (B : TagBucket → Prop) (aid tag : String)
    (ts : List (String × TagBucket))
    (hts : ∀ p ∈ ts, B p.2) (hdef : B ⟨[], [], []⟩)
    (happ : ∀ b, B b → B ⟨b.asset_ids ++ [aid], b.spec_ids, b.asset_files⟩) :
    ∀ p ∈ updateTagForAsset ts aid tag, B p.2 := by
  intro p hp
  simp only [updateTagForAsset] at hp
  have hb0 : B ((lookupA ts tag).getD ⟨[], [], []⟩) := by
    cases hlk : lookupA ts tag with
    | none => simpa using hdef
    | some b =>
      simpa using hts (tag, b) (mem_of_lookupA ts tag b hlk)
  have hb : B (if ((lookupA ts tag).getD ⟨[], [], []⟩).asset_ids.contains aid then
      (lookupA ts tag).getD ⟨[], [], []⟩
    else
      { (lookupA ts tag).getD ⟨[], [], []⟩ with
          asset_ids := ((lookupA ts tag).getD ⟨[], [], []⟩).asset_ids ++ [aid] }) := by
    split
    · exact hb0
    · exact happ _ hb0
  rcases mem_setA _ _ _ p hp with h | h
  · subst h
    exact hb
  · exact hts p h

/-- The tag-loop fold of `add_asset` preserves a bucket predicate with
the same closure properties. -/
theorem fold_updateTagForAsset_inv (B : TagBucket → Prop) (aid : String)
    (hdef : B ⟨[], [], []⟩)
    (happ : ∀ b, B b → B ⟨b.asset_ids ++ [aid], b.spec_ids, b.asset_files⟩) :
    ∀ (tgs : List String) (ts : List (String × TagBucket)),
      (∀ p ∈ ts, B p.2) →
      ∀ p ∈ tgs.foldl (fun ts' tag => updateTagForAsset ts' aid tag) ts, B p.2
  | [], ts, hts => by simpa using hts
  | tg :: tgs, ts, hts => by
    intro p hp
    simp only [List.foldl_cons] at hp
    exact fold_updateTagForAsset_inv B aid hdef happ tgs
      (updateTagForAsset ts aid tg)
      (updateTagForAsset_inv B aid tg ts hts hdef happ) p hp

/-- `add_asset` preserves referential integrity. -/
theorem add_asset_integrity (idx : TrendifyIndex) (aid ty fp : String) (pos : Nat)
    (og : String) (tgs : List String) (h : IndexIntegrity idx) :
    IndexIntegrity (add_asset idx aid ty fp pos og tgs) := by
  obtain ⟨h1, h2, h3⟩ := h
  have hmono : ∀ a : String, (lookupA idx.assets a).isSome →
      (lookupA (setA idx.assets aid ⟨ty, fp, pos, og, tgs⟩) a).isSome := by
    intro a ha
    rcases Option.isSome_iff_exists.mp ha with ⟨w, hw⟩
    exact lookupA_setA_isSome idx.assets aid a _ w hw
  have hself : (lookupA (setA idx.assets aid ⟨ty, fp, pos, og, tgs⟩) aid).isSome := by
    simp [lookupA_setA_self]
  refine ⟨?_, ?_, ?_⟩
  · -- tag buckets: asset ids resolve in the updated asset map
    intro p hp
    have := fold_updateTagForAsset_inv
      (fun b => ∀ a ∈ b.asset_ids,
        (lookupA (setA idx.assets aid ⟨ty, fp, pos, og, tgs⟩) a).isSome)
      aid (by simp)
      (by
        intro b hb a ha
        rcases List.mem_append.mp ha with ha' | ha'
        · exact hb a ha'
        · simp only [List.mem_singleton] at ha'
          subst ha'
          exact hself)
      tgs idx.tags
      (fun q hq a ha => hmono a (h1 q hq a ha))
    exact this p (by simpa [add_asset] using hp)
  · -- origin buckets
    intro p hp
    have hp' : p ∈ setA idx.origins og
        (if ((lookupA idx.origins og).getD ⟨[], ""⟩).asset_ids.contains aid then
           (lookupA idx.origins og).getD ⟨[], ""⟩
         else
           { (lookupA idx.origins og).getD ⟨[], ""⟩ with
               asset_ids := ((lookupA idx.origins og).getD ⟨[], ""⟩).asset_ids ++ [aid] }) := by
      simpa [add_asset] using hp
    have hb0 : ∀ a ∈ ((lookupA idx.origins og).getD ⟨[], ""⟩).asset_ids,
        (lookupA (setA idx.assets aid ⟨ty, fp, pos, og, tgs⟩) a).isSome := by
      cases hlk : lookupA idx.origins og with
      | none => simp
      | some b =>
        intro a ha
        exact hmono a (h2 (og, b) (mem_of_lookupA idx.origins og b hlk) a (by simpa using ha))
    rcases mem_setA _ _ _ p hp' with he | he
    · subst he
      intro a ha
      simp only at ha
      split at ha
      · exact hb0 a ha
      · rcases List.mem_append.mp ha with ha' | ha'
        · exact hb0 a ha'
        · simp only [List.mem_singleton] at ha'
          subst ha'
          exact hself
    · intro a ha
      exact hmono a (h2 p he a ha)
  · -- spec ids: the spec map is untouched and buckets never gain spec ids
    intro p hp
    have := fold_updateTagForAsset_inv
      (fun b => ∀ s ∈ b.spec_ids, (lookupA idx.specs s).isSome)
      aid (by simp)
      (by intro b hb s hs; exact hb s hs)
      tgs idx.tags
      (fun q hq s hs => h3 q hq s hs)
    have hres := this p (by simpa [add_asset] using hp)
    simpa [add_asset] using hres

/-- `add_spec` preserves referential integrity. -/
theorem add_spec_integrity (idx : TrendifyIndex) (sid sty fp tg : String)
    (h : IndexIntegrity idx) : IndexIntegrity (add_spec idx sid sty fp tg) := by
  obtain ⟨h1, h2, h3⟩ := h
  have hmono : ∀ s : String, (lookupA idx.specs s).isSome →
      (lookupA (setA idx.specs sid ⟨sty, fp, tg⟩) s).isSome := by
    intro s hs
    rcases Option.isSome_iff_exists.mp hs with ⟨w, hw⟩
    exact lookupA_setA_isSome idx.specs sid s _ w hw
  have hself : (lookupA (setA idx.specs sid ⟨sty, fp, tg⟩) sid).isSome := by
    simp [lookupA_setA_self]
  have hb0a : ∀ a ∈ ((lookupA idx.tags tg).getD ⟨[], [], []⟩).asset_ids,
      (lookupA idx.assets a).isSome := by
    cases hlk : lookupA idx.tags tg with
    | none => simp
    | some b =>
      intro a ha
      exact h1 (tg, b) (mem_of_lookupA idx.tags tg b hlk) a (by simpa using ha)
  have hb0s : ∀ s ∈ ((lookupA idx.tags tg).getD ⟨[], [], []⟩).spec_ids,
      (lookupA idx.specs s).isSome := by
    cases hlk : lookupA idx.tags tg with
    | none => simp
    | some b =>
      intro s hs
      exact h3 (tg, b) (mem_of_lookupA idx.tags tg b hlk) s (by simpa using hs)
  refine ⟨?_, ?_, ?_⟩
  · -- tag buckets / asset ids: asset map untouched, asset ids unchanged
    intro p hp
    have hp' : p ∈ setA idx.tags tg
        (if ((lookupA idx.tags tg).getD ⟨[], [], []⟩).spec_ids.contains sid then
           (lookupA idx.tags tg).getD ⟨[], [], []⟩
         else
           { (lookupA idx.tags tg).getD ⟨[], [], []⟩ with
               spec_ids := ((lookupA idx.tags tg).getD ⟨[], [], []⟩).spec_ids ++ [sid] }) := by
      simpa [add_spec] using hp
    rcases mem_setA _ _ _ p hp' with he | he
    · subst he
      intro a ha
      simp only at ha
      have ha' : a ∈ ((lookupA idx.tags tg).getD ⟨[], [], []⟩).asset_ids := by
        split at ha
        · exact ha
        · exact ha
      simpa [add_spec] using hb0a a ha'
    · intro a ha
      simpa [add_spec] using h1 p he a ha
  · -- origin buckets: untouched
    intro p hp
    have hp' : p ∈ idx.origins := by simpa [add_spec] using hp
    intro a ha
    simpa [add_spec] using h2 p hp' a ha
  · -- tag buckets / spec ids
    intro p hp
    have hp' : p ∈ setA idx.tags tg
        (if ((lookupA idx.tags tg).getD ⟨[], [], []⟩).spec_ids.contains sid then
           (lookupA idx.tags tg).getD ⟨[], [], []⟩
         else
           { (lookupA idx.tags tg).getD ⟨[], [], []⟩ with
               spec_ids := ((lookupA idx.tags tg).getD ⟨[], [], []⟩).spec_ids ++ [sid] }) := by
      simpa [add_spec] using hp
    rcases mem_setA _ _ _ p hp' with he | he
    · subst he
      intro s hs
      simp only at hs
      have : (lookupA (setA idx.specs sid ⟨sty, fp, tg⟩) s).isSome := by
        split at hs
        · exact hmono s (hb0s s hs)
        · rcases List.mem_append.mp hs with hs' | hs'
          · exact hmono s (hb0s s hs')
          · simp only [List.mem_singleton] at hs'
            subst hs'
            exact hself
      simpa [add_spec] using this
    · intro s hs
      simpa [add_spec] using hmono s (h3 p he s hs)

/-- `add_asset_file` preserves referential integrity. -/
theorem add_asset_file_integrity (idx : TrendifyIndex) (fp tg : String)
    (h : IndexIntegrity idx) : IndexIntegrity (add_asset_file idx fp tg) := by
  obtain ⟨h1, h2, h3⟩ := h
  have hb0a : ∀ a ∈ ((lookupA idx.tags tg).getD ⟨[], [], []⟩).asset_ids,
      (lookupA idx.assets a).isSome := by
    cases hlk : lookupA idx.tags tg with
    | none => simp
    | some b =>
      intro a ha
      exact h1 (tg, b) (mem_of_lookupA idx.tags tg b hlk) a (by simpa using ha)
  have hb0s : ∀ s ∈ ((lookupA idx.tags tg).getD ⟨[], [], []⟩).spec_ids,
      (lookupA idx.specs s).isSome := by
    cases hlk : lookupA idx.tags tg with
    | none => simp
    | some b =>
      intro s hs
      exact h3 (tg, b) (mem_of_lookupA idx.tags tg b hlk) s (by simpa using hs)
  refine ⟨?_, ?_, ?_⟩
  · intro p hp
    have hp' : p ∈ setA idx.tags tg
        (if ((lookupA idx.tags tg).getD ⟨[], [], []⟩).asset_files.contains fp then
           (lookupA idx.tags tg).getD ⟨[], [], []⟩
         else
           { (lookupA idx.tags tg).getD ⟨[], [], []⟩ with
               asset_files := ((lookupA idx.tags tg).getD ⟨[], [], []⟩).asset_files ++ [fp] }) := by
      simpa [add_asset_file] using hp
    rcases mem_setA _ _ _ p hp' with he | he
    · subst he
      intro a ha
      simp only at ha
      have ha' : a ∈ ((lookupA idx.tags tg).getD ⟨[], [], []⟩).asset_ids := by
        split at ha
        · exact ha
        · exact ha
      simpa [add_asset_file] using hb0a a ha'
    · intro a ha
      simpa [add_asset_file] using h1 p he a ha
  · intro p hp
    have hp' : p ∈ idx.origins := by simpa [add_asset_file] using hp
    intro a ha
    simpa [add_asset_file] using h2 p hp' a ha
  · intro p hp
    have hp' : p ∈ setA idx.tags tg
        (if ((lookupA idx.tags tg).getD ⟨[], [], []⟩).asset_files.contains fp then
           (lookupA idx.tags tg).getD ⟨[], [], []⟩
         else
           { (lookupA idx.tags tg).getD ⟨[], [], []⟩ with
               asset_files := ((lookupA idx.tags tg).getD ⟨[], [], []⟩).asset_files ++ [fp] }) := by
      simpa [add_asset_file] using hp
    rcases mem_setA _ _ _ p hp' with he | he
    · subst he
      intro s hs
      simp only at hs
      have hs' : s ∈ ((lookupA idx.tags tg).getD ⟨[], [], []⟩).spec_ids := by
        split at hs
        · exact hs
        · exact hs
      simpa [add_asset_file] using hb0s s hs'
    · intro s hs
      simpa [add_asset_file] using h3 p he s hs

/-- Every single mutating call preserves referential integrity. -/
theorem applyOp_integrity (idx : TrendifyIndex) (op : IndexOp)
    (h : IndexIntegrity idx) : IndexIntegrity (applyOp idx op) := by
  cases op with
  | addAsset aid ty fp pos og tgs => exact add_asset_integrity idx aid ty fp pos og tgs h
  | addSpec sid sty fp tg => exact add_spec_integrity idx sid sty fp tg h
  | addAssetFile fp tg => exact add_asset_file_integrity idx fp tg h

/-- C5 — Index referential integrity invariant: starting from an empty
`TrendifyIndex`, after any sequence of `add_asset`, `add_spec` and
`add_asset_file` calls, every asset id listed in any tag bucket or origin
bucket is a key of the `assets` map, and every spec id listed in any tag
bucket is a key of the `specs` map. -/
theorem C5_index_integrity (ops : List IndexOp) :
    IndexIntegrity (applyOps ops emptyIndex) := by
  have hstep : ∀ (ops' : List IndexOp) (idx : TrendifyIndex),
      IndexIntegrity idx → IndexIntegrity (applyOps ops' idx) := by
    intro ops'
    induction ops' with
    | nil => intro idx h; simpa [applyOps] using h
    | cons op rest ih =>
      intro idx h
      simpa [applyOps, List.foldl_cons] using ih (applyOp idx op) (applyOp_integrity idx op h)
  exact hstep ops emptyIndex (by refine ⟨?_, ?_, ?_⟩ <;> simp [emptyIndex])

/-- C6 — Bounded read cache with insertion-order eviction: (i) any
successful `_load_assets_file` call leaves the cache within
`_max_cache_size` whenever it started within the bound; (ii) a request
for an already-cached path is answered from the cache, unchanged state
and no file read; (iii) a miss that costs an eviction removes exactly the
earliest-inserted entry — the new cache is the old tail plus the new
entry appended — so the evicted (head) path is no longer cached and
(iv) a miss for a present file is a fresh load of the file's current
contents. -/
theorem C6_cache_eviction (st : ManagerState) (fp : String) :
    (∀ r st', st.file_cache.length ≤ st.max_cache_size →
       load_assets_file st fp = .ok (r, st') →
       st'.file_cache.length ≤ st.max_cache_size)
    ∧ (∀ v, lookupA st.file_cache fp = some v → load_assets_file st fp = .ok (v, st))
    ∧ (∀ m k0 b0 tl,
        lookupA st.file_cache fp = none →
        st.file_cache = (k0, b0) :: tl →
        st.file_cache.length = st.max_cache_size →
        lookupA st.fs fp = some m →
        load_assets_file st fp = .ok (m, { st with file_cache := tl ++ [(fp, m)] })
        ∧ ((keysA st.file_cache).Nodup → lookupA (tl ++ [(fp, m)]) k0 = none))
    ∧ (∀ m, lookupA st.file_cache fp = none → lookupA st.fs fp = some m →
        ∃ st', load_assets_file st fp = .ok (m, st')) := by
  refine ⟨?_, ?_, ?_, ?_⟩
  · -- (i) boundedness
    intro r st' hle hok
    simp only [load_assets_file] at hok
    cases hc : lookupA st.file_cache fp with
    | some v =>
      rw [hc] at hok
      simp only [Except.ok.injEq, Prod.mk.injEq] at hok
      rw [← hok.2]
      exact hle
    | none =>
      rw [hc] at hok
      cases hfs : lookupA st.fs fp with
      | none => rw [hfs] at hok; simp at hok
      | some m =>
        rw [hfs] at hok
        simp only [Except.ok.injEq, Prod.mk.injEq] at hok
        rw [← hok.2]
        have hset : setA st.file_cache fp m = st.file_cache ++ [(fp, m)] :=
          setA_eq_append_of_absent st.file_cache fp m hc
        by_cases hgt : st.max_cache_size < (setA st.file_cache fp m).length
        · simp only [hgt, if_pos]
          have : (setA st.file_cache fp m).length = st.file_cache.length + 1 := by
            rw [hset]; simp
          calc ((setA st.file_cache fp m).drop 1).length
              = (setA st.file_cache fp m).length - 1 := by simp
            _ ≤ st.file_cache.length := by omega
            _ ≤ st.max_cache_size := hle
        · simp only [hgt, if_neg, Bool.false_eq_true, not_false_eq_true]
          have : (setA st.file_cache fp m).length = st.file_cache.length + 1 := by
            rw [hset]; simp
          omega
  · -- (ii) cache hit
    intro v hv
    simp [load_assets_file, hv]
  · -- (iii) eviction of the earliest-inserted entry
    intro m k0 b0 tl hmiss hhead hfull hfs
    have hset : setA st.file_cache fp m = st.file_cache ++ [(fp, m)] :=
      setA_eq_append_of_absent st.file_cache fp m hmiss
    have hlen : (setA st.file_cache fp m).length = st.max_cache_size + 1 := by
      rw [hset]
      simp [hfull]
    have hgt : st.max_cache_size < (setA st.file_cache fp m).length := by omega
    have hdrop : (setA st.file_cache fp m).drop 1 = tl ++ [(fp, m)] := by
      rw [hset, hhead]
      simp
    constructor
    · simp only [load_assets_file, hmiss, hfs, hgt, if_pos, hdrop]
    · intro hnd
      have hk0fp : k0 ≠ fp := by
        intro he
        rw [hhead] at hmiss
        simp [lookupA, he] at hmiss
      have hk0tl : k0 ∉ keysA tl := by
        rw [hhead] at hnd
        simp only [keysA, List.map_cons] at hnd
        exact (List.nodup_cons.mp hnd).1
      rw [lookupA_append]
      rw [lookupA_eq_none_of_not_mem tl k0 hk0tl]
      simp [lookupA, Ne.symm hk0fp]
  · -- (iv) a miss reads the file's current contents
    intro m hmiss hfs
    refine ⟨{ st with file_cache :=
        (if st.max_cache_size < (setA st.file_cache fp m).length then
          (setA st.file_cache fp m).drop 1
        else setA st.file_cache fp m) }, ?_⟩
    simp only [load_assets_file, hmiss, hfs]

/-- Concrete check of C6: with bound 1 and a full cache holding `fA`,
loading `fB` succeeds, evicts `fA` (the earliest-inserted entry), caches
`fB`, and `fA` is no longer cached. -/
theorem C6_witness :
    load_assets_file stC6 "fB" = .ok (collB, { stC6 with file_cache := [("fB", collB)] })
    ∧ lookupA [("fB", collB)] "fA" = none :=
  have h := (C6_cache_eviction stC6 "fB").2.2.1 collB "fA" collA []
    (by decide) rfl rfl (by decide)
  ⟨h.1, by simpa using h.2 (by decide)⟩

/-- `process_origin_directory` always returns the allocated origin id,
whether or not the generator raised. -/
theorem process_origin_directory_fst (env : FsEnv) (gen : AssetGenerator) (fname : String)
    (st : ManagerState) (d : String) :
    (process_origin_directory env gen fname st d).1 = get_origin_id env d := by
  cases hg : gen d with
  | error e => simp [process_origin_directory, hg]
  | ok p => simp [process_origin_directory, hg]

/-- `process_origins` returns one origin id per input directory, in
order, independently of generator failures. -/
theorem process_origins_fst (env : FsEnv) (gen : AssetGenerator) (fname : String) :
    ∀ (dirs : List String) (st : ManagerState),
      (process_origins env gen fname st dirs).1 = dirs.map (get_origin_id env)
  | [], st => rfl
  | d :: ds, st => by
    simp only [process_origins, List.map_cons]
    rw [process_origin_directory_fst env gen fname st d,
      process_origins_fst env gen fname ds _]

/-- C4 — Per-origin failure isolation: the batch `process_origins` call
returns an origin id for every input directory (so no generator
exception escapes it); when the generator raises for a directory,
`process_origin_directory` still returns the allocated origin id, the
only state change being the logged error; and a subsequent
`get_assets_by_origin` query for such a failed origin (one the index
does not know) returns the empty sequence without touching the state. -/
theorem C4_failure_isolation (env : FsEnv) (gen : AssetGenerator) (fname : String)
    (sub : String → String → Bool) (st : ManagerState) (dirs : List String)
    (input_dir : String) :
    ((process_origins env gen fname st dirs).1 = dirs.map (get_origin_id env))
    ∧ (∀ e, gen input_dir = .error e →
        process_origin_directory env gen fname st input_dir =
          (get_origin_id env input_dir,
           { st with log :=
               st.log ++ ["Error processing directory " ++ input_dir ++ ": " ++ e] }))
    ∧ (∀ e, gen input_dir = .error e →
        lookupA st.index.origins (get_origin_id env input_dir) = none →
        get_assets_by_origin sub (process_origin_directory env gen fname st input_dir).2
          (get_origin_id env input_dir) none
          = .ok ([], (process_origin_directory env gen fname st input_dir).2)) := by
  refine ⟨process_origins_fst env gen fname dirs st, ?_, ?_⟩
  · intro e hg
    simp [process_origin_directory, hg]
  · intro e hg hunknown
    have hst : (process_origin_directory env gen fname st input_dir).2 =
        { st with log :=
            st.log ++ ["Error processing directory " ++ input_dir ++ ": " ++ e] } := by
      simp [process_origin_directory, hg]
    rw [hst]
    simp only [get_assets_by_origin, get_asset_ids_by_origin]
    rw [show ({ st with log :=
        st.log ++ ["Error processing directory " ++ input_dir ++ ": " ++ e] } :
        ManagerState).index = st.index from rfl]
    rw [hunknown]
    simp [collect_file_positions, load_positions, pure, Except.pure]

/-- Concrete check of C4: a one-directory batch whose generator raises
still yields its origin id, and querying that origin returns the empty
sequence. -/
theorem C4_witness :
    (process_origins envW genFail "data_products.json" st0 ["o3"]).1 = ["o3_0007"]
    ∧ get_assets_by_origin subAll
        (process_origin_directory envW genFail "data_products.json" st0 "o3").2
        "o3_0007" none
        = .ok ([], (process_origin_directory envW genFail "data_products.json" st0 "o3").2) := by
  have h := C4_failure_isolation envW genFail "data_products.json" subAll st0 ["o3"] "o3"
  have hid : get_origin_id envW "o3" = "o3_0007" := by decide
  refine ⟨?_, ?_⟩
  · rw [h.1]
    simp [hid]
  · have h3 := h.2.2 "boom" rfl (by decide)
    rw [hid] at h3
    exact h3

/-- C7 fails as stated for hashing: two value records of the same type
with identical field values but distinct object identities are equal
under pydantic equality, yet hash differently, because
`SerializableModel.__hash__` is `id(self)`, not a function of the field
values. -/
theorem C7_counterexample :
    rv1.cls = rv2.cls ∧ rv1.fields = rv2.fields ∧ pydantic_eq rv1 rv2 = true
    ∧ ser_hash rv1 ≠ ser_hash rv2 := by
  decide

/-- C7 — (amended) Two record identity policies: value records compare
equal exactly by (type, all field values), but hash by object identity
(`id(self)`), not by field values; named records with non-`None` names
compare equal exactly by (type, name) and hash by (type name, name), so
two named records of the same type with equal names compare and hash
equal regardless of their other field values. -/
theorem C7_identity_policies (hashTN : String → Value → Nat) (r1 r2 : RecordL)
    (n n1 n2 : Value) :
    (pydantic_eq r1 r2 = true ↔ (r1.cls = r2.cls ∧ r1.fields = r2.fields))
    ∧ ser_hash r1 = r1.objId
    ∧ (named_name r1 = some n1 → named_name r2 = some n2 →
        "NamedModel" ∈ r2.cls.ancestors →
        (named_eq r1 r2 = true ↔ (r1.cls = r2.cls ∧ n1 = n2)))
    ∧ (named_name r1 = some n → named_hash hashTN r1 = hashTN r1.cls.name n)
    ∧ (r1.cls = r2.cls → "NamedModel" ∈ r2.cls.ancestors →
        named_name r1 = some n → named_name r2 = some n →
        named_eq r1 r2 = true ∧ named_hash hashTN r1 = named_hash hashTN r2) := by
  refine ⟨?_, rfl, ?_, ?_, ?_⟩
  · simp [pydantic_eq]
  · intro h1 h2 hna
    simp [named_eq, h1, h2, hna]
  · intro h
    simp [named_hash, h]
  · intro hcls hna h1 h2
    constructor
    · simp [named_eq, h1, h2, hna, hcls]
    · simp [named_hash, h1, h2, hcls]

/-- Concrete check of the amended C7: two named records of the same type
with equal names but different `x` fields compare and hash equal. -/
theorem C7_witness :
    named_eq ⟨cexNamedClass, 10, [("name", Value.vstr "a"), ("x", Value.vint 1)]⟩
        ⟨cexNamedClass, 11, [("name", Value.vstr "a"), ("x", Value.vint 2)]⟩ = true
    ∧ named_hash (fun _ _ => 0)
        ⟨cexNamedClass, 10, [("name", Value.vstr "a"), ("x", Value.vint 1)]⟩
      = named_hash (fun _ _ => 0)
        ⟨cexNamedClass, 11, [("name", Value.vstr "a"), ("x", Value.vint 2)]⟩ :=
  (C7_identity_policies (fun _ _ => 0)
      ⟨cexNamedClass, 10, [("name", Value.vstr "a"), ("x", Value.vint 1)]⟩
      ⟨cexNamedClass, 11, [("name", Value.vstr "a"), ("x", Value.vint 2)]⟩
      (Value.vstr "a") (Value.vstr "a") (Value.vstr "a")).2.2.2.2
    rfl (by decide) rfl rfl

/-- Matching field dicts carry exactly the schema's names, in order. -/
theorem fieldsMatch_names : ∀ (sch : List (String × FieldType)) (fs : List (String × Value)),
    fieldsMatchSchema sch fs = true → fs.map Prod.fst = sch.map Prod.fst
  | [], [], _ => rfl
  | [], _ :: _, h => by simp [fieldsMatchSchema] at h
  | _ :: _, [], h => by simp [fieldsMatchSchema] at h
  | (nm, t) :: sch, (nm', w) :: fs, h => by
    simp only [fieldsMatchSchema, Bool.and_eq_true, decide_eq_true_eq] at h
    simp [h.1.1, fieldsMatch_names sch fs h.2]

/-- With distinct field names, every field of a record can be looked up
in its dump (the `type_info` tail is never reached for a field name that
occurs in the field dict). -/
theorem lookup_dump_mem : ∀ (fs : List (String × Value)) (tail : Doc) (nm : String) (v : Value),
    (fs.map Prod.fst).Nodup → (nm, v) ∈ fs →
    lookupA (fs.map (fun p => (p.1, DocVal.prim p.2)) ++ tail) nm = some (DocVal.prim v)
  | [], _, nm, v, _, hmem => by simp at hmem
  | (n0, v0) :: fs, tail, nm, v, hnd, hmem => by
    simp only [List.map_cons, List.nodup_cons] at hnd
    rcases List.mem_cons.mp hmem with he | he
    · cases he
      simp [lookupA]
    · have hne : n0 ≠ nm := by
        intro h0
        exact hnd.1 (h0 ▸ (List.mem_map.mpr ⟨(nm, v), he, rfl⟩))
      simp only [List.map_cons, List.cons_append, lookupA, if_neg hne]
      exact lookup_dump_mem fs tail nm v hnd.2 he

/-- If every schema field can be looked up in the document with a
well-typed value, `fieldsFromDoc` returns exactly those fields. -/
theorem fieldsFromDoc_of_match : ∀ (sch : List (String × FieldType))
    (fs : List (String × Value)) (doc : Doc),
    fieldsMatchSchema sch fs = true →
    (∀ p ∈ fs, lookupA doc p.1 = some (DocVal.prim p.2)) →
    fieldsFromDoc sch doc = .ok fs
  | [], [], _, _, _ => rfl
  | [], _ :: _, _, h, _ => by simp [fieldsMatchSchema] at h
  | _ :: _, [], _, h, _ => by simp [fieldsMatchSchema] at h
  | (nm, t) :: sch, (nm', w) :: fs, doc, h, hl => by
    simp only [fieldsMatchSchema, Bool.and_eq_true, decide_eq_true_eq] at h
    obtain ⟨⟨hn, ht⟩, hrest⟩ := h
    subst hn
    have hw : lookupA doc nm = some (DocVal.prim w) := hl (nm, w) (List.mem_cons_self _ _)
    simp only [fieldsFromDoc, hw, ht, if_pos,
      fieldsFromDoc_of_match sch fs doc hrest (fun p hp => hl p (List.mem_cons_of_mem _ hp))]

/-- The embedded descriptor of a dumped record is retrievable whenever no
pydantic field shadows the `type_info` key. -/
theorem lookup_dump_type_info (r : RecordL) (hti : "type_info" ∉ r.fields.map Prod.fst) :
    lookupA (model_dump r) "type_info" = some (DocVal.tinfo (type_info_of r.cls)) := by
  have haux : ∀ (fs : List (String × Value)), "type_info" ∉ fs.map Prod.fst →
      lookupA (fs.map (fun p => (p.1, DocVal.prim p.2)) ++
        [("type_info", DocVal.tinfo (type_info_of r.cls))]) "type_info"
      = some (DocVal.tinfo (type_info_of r.cls)) := by
    intro fs
    induction fs with
    | nil => intro _; simp [lookupA]
    | cons p fs ih =>
      intro h
      simp only [List.map_cons, List.mem_cons] at h
      push_neg at h
      simp only [List.map_cons, List.cons_append, lookupA]
      rw [if_neg (Ne.symm h.1)]
      exact ih h.2
  exact haux r.fields hti

/-- Well-formed records validate back to themselves (up to the fresh
object identity) under plain pydantic validation of their own dump. -/
theorem pydantic_validate_dump (r : RecordL)
    (hwf : fieldsMatchSchema r.cls.schema r.fields = true)
    (hnd : (r.cls.schema.map Prod.fst).Nodup) :
    pydantic_validate r.cls (model_dump r) = .ok ⟨r.cls, 0, r.fields⟩ := by
  have hndf : (r.fields.map Prod.fst).Nodup := by
    rw [fieldsMatch_names r.cls.schema r.fields hwf]
    exact hnd
  have hl : ∀ p ∈ r.fields, lookupA (model_dump r) p.1 = some (DocVal.prim p.2) := by
    intro p hp
    exact lookup_dump_mem r.fields _ p.1 p.2 hndf hp
  simp [pydantic_validate, fieldsFromDoc_of_match r.cls.schema r.fields (model_dump r) hwf hl]

/-- When the target class is not the base class and the embedded
descriptor carries the target's own name, `model_validate_doc` skips
resolution and validates directly. -/
theorem model_validate_doc_self (renv : ResolveEnv) (fuel : Nat) (c : ModelClass) (d : Doc)
    (hc : c ≠ SerializableModelBase)
    (hl : lookupA d "type_info" = some (DocVal.tinfo (type_info_of c))) :
    model_validate_doc renv fuel c d = pydantic_validate c d := by
  unfold model_validate_doc
  rw [hl]
  simp only [type_info_of, TypeInfoL.base_name]
  rw [if_neg]
  push_neg
  exact ⟨hc, rfl⟩

/-- C1 — Polymorphic round-trip: for a record `r` of concrete class `S`
(a `SerializableModel` subclass whose well-formed fields do not shadow
the `type_info` key), serializing `r` (`model_dump`, which always embeds
`S`'s descriptor) and validating the document against the base class with
any positive fuel yields an instance of exactly `S` whose fields equal
`r`'s field for field, provided the import environment resolves `S`'s
descriptor back to `S`. -/
theorem C1_polymorphic_round_trip (renv : ResolveEnv) (r : RecordL) (fuel : Nat)
    (hsub : "SerializableModel" ∈ r.cls.ancestors)
    (hres : renv (type_info_of r.cls) = .ok r.cls)
    (hwf : fieldsMatchSchema r.cls.schema r.fields = true)
    (hnd : (r.cls.schema.map Prod.fst).Nodup)
    (hti : "type_info" ∉ r.cls.schema.map Prod.fst)
    (hfuel : 1 ≤ fuel) :
    model_validate renv fuel SerializableModelBase (.doc (model_dump r)) =
      .ok ⟨r.cls, 0, r.fields⟩ := by
  have htif : "type_info" ∉ r.fields.map Prod.fst := by
    rw [fieldsMatch_names r.cls.schema r.fields hwf]
    exact hti
  have hlti := lookup_dump_type_info r htif
  have hpv := pydantic_validate_dump r hwf hnd
  obtain ⟨fuel', rfl⟩ : ∃ f', fuel = f' + 1 := ⟨fuel - 1, by omega⟩
  simp only [model_validate]
  unfold model_validate_doc
  rw [hlti]
  dsimp only
  rw [if_pos (Or.inl rfl)]
  rw [hres]
  dsimp only
  rw [if_neg (fun hnot => hnot hsub)]
  by_cases hcls : r.cls = SerializableModelBase
  · rw [if_neg (by simp [hcls])]
    rw [hcls] at hpv ⊢
    rw [← hcls] at hpv ⊢
    exact hpv
  · rw [if_pos hcls]
    rw [model_validate_doc_self renv fuel' r.cls (model_dump r) hcls hlti]
    exact hpv

/-- Concrete check of C1: a `MyRecord` instance round-trips through a
base-class `model_validate` to a fresh `MyRecord` with equal fields. -/
theorem C1_witness :
    model_validate renvGood 2 SerializableModelBase (.doc (model_dump rW)) =
      .ok ⟨cexClass, 0, [("x", Value.vint 3)]⟩ :=
  C1_polymorphic_round_trip renvGood rW 2 (by decide) rfl (by decide)
    (by decide) (by decide) (by omega)

/-- C3 fails as stated: on a document whose embedded descriptor cannot be
resolved (`renvFail` raises on every import), base-class `model_validate`
does not propagate the failure — it succeeds, falling back to validation
against the default class. -/
theorem C3_counterexample :
    renvFail cexTi = .error "ImportError: module not found"
    ∧ model_validate renvFail 1 SerializableModelBase (.doc cexDoc) =
        .ok ⟨SerializableModelBase, 0, []⟩ :=
  ⟨rfl, rfl⟩

/-- C3 — (amended) Resolution-failure handling: when resolving the
embedded descriptor fails (or the resolved object is not a
`SerializableModel` subclass — the `TypeError` raised for it is caught by
the same handler), `SerializableModel.model_validate` catches the error,
logs a warning, and falls back to validating the document against the
declared class; `TypeInfo.get_import` itself does propagate the failure
as a raised `ImportError` and caches nothing. -/
theorem C3_resolution_fallback {Obj : Type} (renv : ResolveEnv) (c : ModelClass) (d : Doc)
    (ti : TypeInfoL) (fuel : Nat) (err : String) (env : ImportEnv Obj)
    (m b : String) (ps : List TypeInfoL) (u : Bool) (refresh : Bool)
    (cache : ImportCache Obj) (e2 : String) :
    (lookupA d "type_info" = some (DocVal.tinfo ti) →
      (c = SerializableModelBase ∨
        strip_generic_suffix c.name ≠ strip_generic_suffix ti.base_name) →
      renv ti = .error err →
      model_validate renv fuel c (.doc d) = pydantic_validate c d)
    ∧ (lookupA cache (cache_key (.mk m b ps u)) = none →
      env.importModule m = .error e2 →
      get_import env (.mk m b ps u) refresh cache =
        (.error ("Failed to import " ++ m ++ "." ++ strip_generic_suffix b ++ ": " ++ e2),
         cache)) := by
  constructor
  · intro hl hcond hres
    simp only [model_validate]
    unfold model_validate_doc
    rw [hl]
    dsimp only
    rw [if_pos hcond, hres]
  · intro hmiss him
    unfold get_import
    split
    · next v hv =>
      exfalso
      by_cases hu : (u && !refresh) = true
      · rw [if_pos hu, hmiss] at hv
        exact Option.noConfusion hv
      · rw [if_neg hu] at hv
        exact Option.noConfusion hv
    · rw [him]

/-- Concrete check of the amended C3: the unresolvable document falls
back to base-class validation, while a failing module import makes
`get_import` return the raised error with the cache untouched. -/
theorem C3_fallback_witness :
    model_validate renvFail 1 SerializableModelBase (.doc cexDoc) =
      pydantic_validate SerializableModelBase cexDoc
    ∧ get_import (⟨fun _ => .error "no module", fun _ _ => .error "gx", fun _ _ => none⟩ :
        ImportEnv Nat) (.mk "nosuch" "X" [] true) false [] =
        (.error ("Failed to import " ++ "nosuch" ++ "." ++ strip_generic_suffix "X" ++ ": "
          ++ "no module"), []) :=
  have h := C3_resolution_fallback renvFail SerializableModelBase cexDoc cexTi 1
    "ImportError: module not found"
    ⟨fun _ => .error "no module", fun _ _ => .error "gx", fun _ _ => none⟩
    "nosuch" "X" [] true false [] "no module"
  ⟨h.1 rfl (Or.inl rfl) rfl, h.2 rfl rfl⟩

/-- The cache store performed by `get_import` (`setA` under the
descriptor's `use_cache` flag) preserves any other key's binding. -/
theorem lookupA_store_preserve {α : Type} (u : Bool) (C : List (String × α)) (K k : String)
    (x v : α) (hC : lookupA C k = some v) (hKk : u = true → K ≠ k) :
    lookupA (if u = true then setA C K x else C) k = some v := by
  by_cases hu : u = true
  · rw [if_pos hu, lookupA_setA_ne C K k x (hKk hu)]
    exact hC
  · rw [if_neg hu]
    exact hC

mutual

/-- A refresh-free `get_import` call never disturbs an existing cache
binding: every write either targets a key that was absent when the call
began (the descriptor's own key, after a cache miss) or is suppressed by
`use_cache`, and parameter resolution preserves bindings recursively. -/
theorem get_import_mono {Obj : Type} (env : ImportEnv Obj) (d : TypeInfoL)
    (cache : ImportCache Obj) (k : String) (v : Obj)
    (h : lookupA cache k = some v) :
    lookupA (get_import env d false cache).2 k = some v := by
  match d with
  | .mk m b ps u =>
    unfold get_import
    split
    · exact h
    · next hnone =>
      have hKk : u = true → cache_key (TypeInfoL.mk m b ps u) ≠ k := by
        intro hu he
        subst hu
        simp only [Bool.not_false, Bool.and_true, if_pos] at hnone
        rw [he, h] at hnone
        exact Option.noConfusion hnone
      cases him : env.importModule m with
      | error e =>
        exact h
      | ok M =>
        dsimp only
        split
        · exact lookupA_store_preserve u cache _ k M v h hKk
        · cases hga : env.getAttr M (strip_generic_suffix b) with
          | error e =>
            exact h
          | ok obj =>
            dsimp only
            match ps with
            | [] => exact lookupA_store_preserve u cache _ k obj v h hKk
            | p :: ps' =>
              dsimp only
              have hlist := get_importList_mono env (p :: ps') cache k v h
              cases hpl : get_importList env (p :: ps') cache with
              | mk res cache' =>
                rw [hpl] at hlist
                dsimp only at hlist ⊢
                cases res with
                | error e => exact hlist
                | ok params => exact lookupA_store_preserve u cache' _ k _ v hlist hKk

/-- Parameter-list resolution preserves existing cache bindings. -/
theorem get_importList_mono {Obj : Type} (env : ImportEnv Obj) (ps : List TypeInfoL)
    (cache : ImportCache Obj) (k : String) (v : Obj)
    (h : lookupA cache k = some v) :
    lookupA (get_importList env ps cache).2 k = some v := by
  match ps with
  | [] =>
    unfold get_importList
    exact h
  | p :: rest =>
    unfold get_importList
    have hhead := get_import_mono env p cache k v h
    cases hp : get_import env p false cache with
    | mk res cache' =>
      rw [hp] at hhead
      dsimp only at hhead ⊢
      cases res with
      | error e => exact hhead
      | ok w =>
        dsimp only
        have htail := get_importList_mono env rest cache' k v hhead
        cases ht : get_importList env rest cache' with
        | mk res' cache'' =>
          rw [ht] at htail
          dsimp only at htail ⊢
          cases res' with
          | error e => exact htail
          | ok ws => exact htail

end

/-- Every successful `get_import` call on a caching descriptor leaves the
result stored in the cache under the descriptor's `cache_key` (a cache
hit returns the stored value itself; every computing success path ends in
the `setA` store). -/
theorem get_import_stores {Obj : Type} (env : ImportEnv Obj) (d : TypeInfoL) (refresh : Bool)
    (cache cache' : ImportCache Obj) (v : Obj)
    (hu : d.use_cache = true)
    (hg : get_import env d refresh cache = (.ok v, cache')) :
    lookupA cache' (cache_key d) = some v := by
  match d with
  | .mk m b ps u =>
    simp only [TypeInfoL.use_cache] at hu
    subst hu
    unfold get_import at hg
    split at hg
    · next w hhit =>
      simp only [Prod.mk.injEq, Except.ok.injEq] at hg
      obtain ⟨rfl, rfl⟩ := hg
      split at hhit
      · exact hhit
      · exact Option.noConfusion hhit
    · next hnone =>
      dsimp only at hg
      split at hg
      · simp at hg
      · next M him =>
        split at hg
        · rw [if_pos rfl] at hg
          simp only [Prod.mk.injEq, Except.ok.injEq] at hg
          obtain ⟨rfl, rfl⟩ := hg
          exact lookupA_setA_self cache _ _
        · split at hg
          · simp at hg
          · next obj hga =>
            split at hg
            · rw [if_pos rfl] at hg
              simp only [Prod.mk.injEq, Except.ok.injEq] at hg
              obtain ⟨rfl, rfl⟩ := hg
              exact lookupA_setA_self cache _ _
            · split at hg
              · simp at hg
              · next params cache₁ hpl =>
                rw [if_pos rfl] at hg
                simp only [Prod.mk.injEq, Except.ok.injEq] at hg
                obtain ⟨rfl, rfl⟩ := hg
                exact lookupA_setA_self cache₁ _ _

/-- C9 — Resolution caching: for a descriptor with caching enabled, every
successful `get_import` call stores its result in the process-wide cache
under the canonical `cache_key` (`module_spec:base_name[param,...]`,
recursively over the type parameters); that binding survives any further
sequence of refresh-free `get_import` calls; and any refresh-free call on
a caching descriptor with the same canonical key is answered with that
identical cached object, leaving the cache unchanged. -/
theorem C9_resolution_caching {Obj : Type} (env : ImportEnv Obj) (d e : TypeInfoL)
    (refresh : Bool) (cache : ImportCache Obj) (v : Obj) (ds : List TypeInfoL) :
    (d.use_cache = true →
      ∀ w cache', get_import env d refresh cache = (.ok w, cache') →
        lookupA cache' (cache_key d) = some w)
    ∧ (lookupA cache (cache_key d) = some v →
        lookupA (runImports env ds cache) (cache_key d) = some v)
    ∧ (e.use_cache = true → cache_key e = cache_key d →
        lookupA cache (cache_key d) = some v →
        get_import env e false cache = (.ok v, cache)) := by
  refine ⟨?_, ?_, ?_⟩
  · intro hu w cache' hg
    exact get_import_stores env d refresh cache cache' w hu hg
  · intro h
    induction ds generalizing cache with
    | nil => simpa [runImports] using h
    | cons d' ds' ih =>
      simp only [runImports, List.foldl_cons] at ih ⊢
      exact ih ((get_import env d' false cache).2) (get_import_mono env d' cache _ v h)
  · intro hu hkey hcache
    match e with
    | .mk m' b' ps' u' =>
      simp only [TypeInfoL.use_cache] at hu
      subst hu
      unfold get_import
      rw [if_pos (by decide : (true && !false) = true)]
      rw [hkey, hcache]

/-- Concrete check of C9: resolving a plain descriptor stores the
resolved object under `m:C`, and a second refresh-free call is answered
from the cache with the identical object and an unchanged cache. -/
theorem C9_witness :
    lookupA (get_import envImp tiW false []).2 (cache_key tiW) = some 2
    ∧ get_import envImp tiW false [("m:C", 2)] = (.ok 2, [("m:C", 2)])
    ∧ lookupA (runImports envImp [tiW] [("m:C", 2)]) (cache_key tiW) = some 2 :=
  have h9 := C9_resolution_caching envImp tiW tiW false [] (2 : Nat) []
  have h9b := C9_resolution_caching envImp tiW tiW false [("m:C", 2)] (2 : Nat) [tiW]
  ⟨h9.1 rfl 2 (get_import envImp tiW false []).2 rfl,
   h9b.2.2 rfl rfl rfl,
   h9b.2.1 rfl⟩
